import Mathlib

/-
Verification development for lib/dht/node.js of feng92f/dht.js.

The file shallowly embeds the routing table (Bucket, RemoteNode), the
announce/peers handlers, the token stubs, the transaction registry of
Node.prototype.request / onmessage, and the scope structure of
Node.prototype.sendAnnouncePeer, and proves or refutes the specification
claims about them.  Node.js Buffers holding 160-bit ids are modelled as
lists of ten 16-bit big-endian words, matching the source's exclusive use
of readUInt16BE / writeUInt16BE at even offsets (buffer offset i is word
i / 2).
-/

namespace DhtJs

/-- Errors the JavaScript runtime can raise while the embedded code runs:
`typeError` models calling a missing method or dereferencing undefined,
`referenceError` models reading an unbound identifier, and
`nonTermination` is the fuel marker of the embedding for a loop pass that
did not finish (never hit by the theorems below). -/
inductive JsErr
  | typeError
  | referenceError
  | nonTermination
  deriving DecidableEq

/-- A JavaScript value reaching the routing-table primitives: a Buffer of
16-bit words, a string (node.js stores contacts under
`this.nodes[remote.id]`, which coerces the Buffer key to a string; the
words are kept as content, since only the absence of Buffer methods on
strings matters below), or undefined (a missing message field). -/
inductive JsVal
  | buf (words : List Nat)
  | str (words : List Nat)
  | undef
  deriving DecidableEq

/-- Reading 16-bit words out of a value, as `readUInt16BE` does: defined
only on Buffers; strings and undefined have no such method, so the
JavaScript engine raises a TypeError. -/
def jsReadWords : JsVal → Except JsErr (List Nat)
  | .buf ws => .ok ws
  | .str _ => .error .typeError
  | .undef => .error .typeError

/-- Whether a value is a Buffer of 20 bytes (ten words): the
`Buffer.isBuffer(x) && x.length === 20` validation pattern of node.js
(it also covers the preceding falsy check, since every Buffer is truthy). -/
def isValid20 : JsVal → Bool
  | .buf ws => ws.length == 10
  | _ => false

/-- Whether a value is a Buffer at all (`Buffer.isBuffer`, together with
the preceding truthiness test of the validation chains). -/
def isBuf : JsVal → Bool
  | .buf _ => true
  | _ => false

/-- The unsigned big-endian integer denoted by a word list. -/
def wordsToNat (ws : List Nat) : Nat :=
  ws.foldl (fun acc w => acc * 65536 + w) 0

/-- Bucket.compare (node.js L394-405): first differing 16-bit word decides;
1 when a is larger, -1 when b is larger, 0 when all words agree. -/
def wordCompare : List Nat → List Nat → Int
  | [], _ => 0
  | _ :: _, [] => 0
  | aw :: arest, bw :: brest =>
      if aw = bw then wordCompare arest brest
      else if bw < aw then 1 else -1

/-- Bucket.compare lifted to JavaScript values: both arguments are read
with readUInt16BE, so a string or undefined argument raises a TypeError
(node.js L395-397). -/
def Bucket.compareVals (a b : JsVal) : Except JsErr Int := do
  let aw ← jsReadWords a
  let bw ← jsReadWords b
  pure (wordCompare aw bw)

/-- One pass of the word loop of Bucket.prototype.split (node.js
L461-486), processed least-significant word first exactly as the JS loop
runs i from 18 down to 0: arguments are the end words and start words in
least-significant-first order plus the running carries overR and overL.
The singleton case is i == 0, where the JS code zeroes overR without
masking the word, keeping its 17th bit. -/
def splitWordsRev : List Nat → List Nat → Nat → Nat → List Nat × List Nat
  | [], _, _, _ => ([], [])
  | _ :: _, [], _, _ => ([], [])
  | [ew], [sw], overR, overL =>
      let word := ew + overR
      let word := (word + sw) / 2
      let lw := if overL ≠ 0 then (if overL ≤ word then word - overL else 65535) else word
      ([word], [lw])
  | ew :: erest, sw :: srest, overR, overL =>
      let word := ew + overR
      let carry := word / 65536
      let word := word % 65536
      let word := (word + sw) / 2
      let lw := if overL ≠ 0 then (if overL ≤ word then word - overL else 65535) else word
      let overL2 := if overL ≠ 0 then (if overL ≤ word then 0 else 1) else overL
      let (rs, ls) := splitWordsRev erest srest carry overL2
      (word :: rs, lw :: ls)

/-- The (rpos, lpos) pair Bucket.prototype.split computes from the bucket
bounds (node.js L454-486): intended as lo_right = floor((lo+hi)/2) + 1 and
hi_left = lo_right - 1, via the handwritten word-at-a-time add and shift. -/
def splitPos (start end_ : List Nat) : List Nat × List Nat :=
  let (r, l) := splitWordsRev end_.reverse start.reverse 1 1
  (r.reverse, l.reverse)

/-- A contact stored in a bucket (function RemoteNode, node.js L506-521).
The ping timer is not represented: no claim depends on it. -/
structure RemoteNode where
  id : List Nat
  address : String
  port : Nat
  firstSeen : Nat
  lastSeen : Nat
  good : Bool
  bads : Nat
  deriving DecidableEq

/-- A k-bucket (function Bucket, node.js L326-352).  `nodes` is the
JavaScript object `this.nodes` as an insertion-ordered association list;
its keys are the contact ids coerced to strings by the property access
`this.nodes[remote.id]`. -/
structure Bucket where
  start : List Nat
  end_ : List Nat
  first : Bool
  nodes : List (JsVal × RemoteNode)
  slots : Nat
  deriving DecidableEq

/-- The full-space root bucket built by the Bucket constructor when no
bounds are supplied (node.js L333-342): start all zero words, end all
0xffff words, slots = node.K. -/
def Bucket.initial (K : Nat) : Bucket :=
  { start := List.replicate 10 0
    end_ := List.replicate 10 65535
    first := true
    nodes := []
    slots := K }

/-- Bucket.prototype.contains (node.js L407-410):
`compare(start, id) <= 0 && compare(id, end) <= 0` with the JavaScript
short-circuit; a non-Buffer id raises a TypeError inside compare. -/
def Bucket.contains (b : Bucket) (v : JsVal) : Except JsErr Bool := do
  let c1 ← Bucket.compareVals (.buf b.start) v
  if c1 ≤ 0 then do
    let c2 ← Bucket.compareVals v (.buf b.end_)
    pure (decide (c2 ≤ 0))
  else
    pure false

/-- Bucket.prototype.getNodes (node.js L386-392): the stored contacts in
key insertion order (`Object.keys` order for these non-index keys). -/
def Bucket.getNodes (b : Bucket) : List RemoteNode :=
  b.nodes.map (fun kv => kv.2)

/-- The string key under which a contact is stored:
`this.nodes[remote.id]` coerces the id Buffer to a string. -/
def nodeKey (r : RemoteNode) : JsVal :=
  .str r.id

/-- Assignment `this.nodes[key] = value` on the insertion-ordered object:
an existing key keeps its position and gets the new value, a fresh key is
appended. -/
def storeKey (m : List (JsVal × RemoteNode)) (k : JsVal) (v : RemoteNode) :
    List (JsVal × RemoteNode) :=
  if m.any (fun kv => kv.1 == k) then
    m.map (fun kv => if kv.1 == k then (k, v) else kv)
  else
    m ++ [(k, v)]

/-- The eviction scan of Bucket.prototype.add (node.js L424-434): the
keys of non-good contacts sorted by ascending lastSeen; the head of that
sort is the first stored bad contact with minimal lastSeen (V8's sort is
stable), computed here by a direct minimum scan. -/
def oldestBadKey (m : List (JsVal × RemoteNode)) : Option JsVal :=
  let bad := m.filter (fun kv => kv.2.good == false)
  (bad.foldl
      (fun acc kv =>
        match acc with
        | none => some kv
        | some best => if kv.2.lastSeen < best.2.lastSeen then some kv else some best)
      none).map (fun kv => kv.1)

/-- Bucket.prototype.remove (node.js L446-452): delete the key if present
and free a slot (the contact's timer close is not modelled). -/
def Bucket.remove (b : Bucket) (k : JsVal) : Bucket :=
  if b.nodes.any (fun kv => kv.1 == k) then
    { b with nodes := b.nodes.filter (fun kv => !(kv.1 == k)), slots := b.slots + 1 }
  else b

/-- The second argument of Bucket.prototype.add: either a raw (address,
port) rinfo from processRequest, or an already-built RemoteNode (the
`target instanceof RemoteNode` branch used by split's redistribution). -/
inductive AddTarget
  | rinfo (address : String) (port : Nat)
  | remote (r : RemoteNode)
  deriving DecidableEq

/-- Bucket.prototype.add (node.js L418-444).  When all slots are busy it
evicts the oldest-seen bad contact or fails; otherwise it unconditionally
stores a RemoteNode under the contact's key — there is no check whether
the id is already present, so a repeated id overwrites the stored contact
yet still decrements `slots` — and returns true.  `now` models
`+new Date`. -/
def Bucket.add (b : Bucket) (id : JsVal) (target : AddTarget) (now : Nat) :
    Bucket × Bool :=
  let afterEvict : Option Bucket :=
    if b.slots == 0 then
      match oldestBadKey b.nodes with
      | none => none
      | some k => some (b.remove k)
    else some b
  match afterEvict with
  | none => (b, false)
  | some b1 =>
      let remote : RemoteNode :=
        match target with
        | .remote r => r
        | .rinfo addr port =>
            { id := match id with | .buf ws => ws | .str ws => ws | .undef => []
              address := addr
              port := port
              firstSeen := now
              lastSeen := now
              good := true
              bads := 0 }
      ({ b1 with nodes := storeKey b1.nodes (nodeKey remote) remote
                 slots := b1.slots - 1 },
       true)

/-- Bucket.prototype.split (node.js L454-503): compute (rpos, lpos) from
the bounds, build head = [start, lpos] and tail = [rpos, end] with fresh
slots, then redistribute every stored contact by `head.contains(id)` —
where id ranges over the OBJECT KEYS of `this.nodes`, which are strings,
so the first redistributed contact raises a TypeError inside
readUInt16BE. -/
def Bucket.split (b : Bucket) (K : Nat) : Except JsErr (Bucket × Bucket) := do
  let (rpos, lpos) := splitPos b.start b.end_
  let head0 : Bucket :=
    { start := b.start, end_ := lpos, first := false, nodes := [], slots := K }
  let tail0 : Bucket :=
    { start := rpos, end_ := b.end_, first := false, nodes := [], slots := K }
  let ht ← b.nodes.foldlM
    (fun (ht : Bucket × Bucket) kv => do
      let c ← ht.1.contains kv.1
      if c then
        pure ((ht.1.add kv.1 (.remote kv.2) 0).1, ht.2)
      else
        pure (ht.1, (ht.2.add kv.1 (.remote kv.2) 0).1))
    (head0, tail0)
  pure ht

/-- An element of the `this.buckets` array.  Normally a Bucket; after a
split, line 143 `buckets.splice(indexOf(bucket), 1, bucket.split())`
passes the two-element array returned by split as a single splice item,
so the array itself becomes one nested element of `this.buckets`. -/
inductive Entry
  | bucket (b : Bucket)
  | pair (p : Bucket × Bucket)
  deriving DecidableEq

/-- Calling `.contains(id)` on a bucket-list element: a nested array (the
result of the splice bug) has no such method, raising a TypeError. -/
def entryContains (e : Entry) (v : JsVal) : Except JsErr Bool :=
  match e with
  | .bucket b => b.contains v
  | .pair _ => .error .typeError

/-- Calling `.getNodes()` on a bucket-list element; as with
`entryContains`, a nested array raises a TypeError. -/
def entryGetNodes (e : Entry) : Except JsErr (List RemoteNode) :=
  match e with
  | .bucket b => .ok b.getNodes
  | .pair _ => .error .typeError

/-- The contacts an element contributes when regarded as a bucket (empty
for a nested pair); used only to state properties, not by the embedding
of the code. -/
def entryNodes (e : Entry) : List RemoteNode :=
  match e with
  | .bucket b => b.getNodes
  | .pair _ => []

/-- The table-update loop of Node.prototype.processRequest (node.js
L131-144).  Each pass filters `this.buckets` for the bucket containing
the sender id (the JS filter evaluates `contains` on EVERY element, so a
nested pair element anywhere raises a TypeError; an empty filter result
makes `bucket.add` a call on undefined, also a TypeError), tries
`bucket.add`, stops on success or on a non-home bucket, and otherwise
replaces the bucket in place by the value of `bucket.split()` — one
nested element, per the splice call — and repeats.  `fuel` bounds the
recursion of the embedding; the theorems below never exhaust it. -/
def observeLoop (fuel : Nat) (selfId : List Nat) (K : Nat) (buckets : List Entry)
    (idv : JsVal) (address : String) (port : Nat) (now : Nat) :
    Except JsErr (List Entry) :=
  match fuel with
  | 0 => .error .nonTermination
  | fuel + 1 => do
      let flags ← buckets.mapM (fun e => entryContains e idv)
      match flags.findIdx? (fun f => f == true) with
      | none => .error .typeError
      | some i =>
          match buckets[i]? with
          | some (.bucket bk) =>
              let (bk2, added) := bk.add idv (.rinfo address port) now
              if added then
                pure (buckets.set i (.bucket bk2))
              else do
                let home ← bk.contains (.buf selfId)
                if home then do
                  let ht ← bk.split K
                  observeLoop fuel selfId K (buckets.set i (.pair ht)) idv address port now
                else
                  pure buckets
          | _ => .error .typeError

/-- The previous-neighbor step of Node.prototype.findKClosest (node.js
L302-304): when index - 1 >= 0, append the nodes of the element before
the containing bucket. -/
def prevExtend (buckets : List Entry) (index : Nat)
    (bnodes : List RemoteNode) : Except JsErr (List RemoteNode) :=
  if 1 ≤ index then
    match buckets[index - 1]? with
    | some e => do
        let pn ← entryGetNodes e
        pure (bnodes ++ pn)
    | none => pure bnodes
  else pure bnodes

/-- The next-neighbor step of Node.prototype.findKClosest (node.js
L305-307): when index + 1 < length, append the nodes of the element after
the containing bucket. -/
def nextExtend (buckets : List Entry) (index : Nat)
    (nodes1 : List RemoteNode) : Except JsErr (List RemoteNode) :=
  if index + 1 < buckets.length then
    match buckets[index + 1]? with
    | some e => do
        let nn ← entryGetNodes e
        pure (nodes1 ++ nn)
    | none => pure nodes1
  else pure nodes1

/-- The neighbor-inclusion step of Node.prototype.findKClosest (node.js
L297-308): when the containing bucket yielded fewer than K contacts,
append the previous neighbor's nodes and then the next neighbor's
nodes. -/
def neighborExtend (K : Nat) (buckets : List Entry) (index : Nat)
    (bnodes : List RemoteNode) : Except JsErr (List RemoteNode) :=
  if bnodes.length < K then do
    let nodes1 ← prevExtend buckets index bnodes
    nextExtend buckets index nodes1
  else pure bnodes

/-- Node.prototype.findKClosest (node.js L290-314): take the nodes of the
bucket containing the id, extend with the immediate neighbors when short
of K, and slice to the first K.  No sorting, no filtering of bad
contacts. -/
def findKClosest (K : Nat) (buckets : List Entry) (idv : JsVal) :
    Except JsErr (List RemoteNode) := do
  let flags ← buckets.mapM (fun e => entryContains e idv)
  match flags.findIdx? (fun f => f == true) with
  | none => .error .typeError
  | some index => do
      let bnodes ←
        match buckets[index]? with
        | some e => entryGetNodes e
        | none => .error .typeError
      let nodes ← neighborExtend K buckets index bnodes
      pure (nodes.take K)

/-- Node.prototype.issueToken (node.js L316-319): `new Buffer(4)`, a
4-byte buffer whose contents are never consulted (modelled as zeros);
no address, secret, or expiry is involved. -/
def issueToken : List Nat :=
  [0, 0, 0, 0]

/-- Node.prototype.verifyToken (node.js L321-324): returns true for every
token, from every address. -/
def verifyToken (_token : JsVal) : Bool :=
  true

/-- A peer record of the peer store (the object literal of node.js
L256-272).  `ttl` stands for the pending expiry timeout; `renew()` resets
it to `self.timeouts.peer`. -/
structure Peer where
  address : String
  port : Nat
  ttl : Nat
  deriving DecidableEq

/-- The peer store `this.peers`: a plain object mapping the hex string of
an info hash to a list of peer records.  The hex coercion of a 20-byte
buffer is injective, so the word list itself serves as the key. -/
abbrev PeerMap : Type :=
  List (List Nat × List Peer)

/-- Property read `this.peers[infohash]`: undefined when the key was
never assigned. -/
def lookupIH (m : PeerMap) (k : List Nat) : Option (List Peer) :=
  (m.find? (fun kv => kv.1 == k)).map (fun kv => kv.2)

/-- Property assignment on the peer store, keeping the position of an
existing key. -/
def setIH (m : PeerMap) (k : List Nat) (v : List Peer) : PeerMap :=
  if m.any (fun kv => kv.1 == k) then
    m.map (fun kv => if kv.1 == k then (k, v) else kv)
  else
    m ++ [(k, v)]

/-- The duplicate test of processAnnouncePeer (node.js L247-251):
`peer.address !== address || peer.port !== peer.port` skips the record,
the literal self-comparison of `peer.port` being always false, so a
record matches exactly when its address equals the sender's. -/
def announceMatches (address : String) (p : Peer) : Bool :=
  !(!(p.address == address) || !(p.port == p.port))

/-- Renew the first record matching the sender address, as
`existing.renew()` reschedules that record's expiry (node.js L253-254,
L259-270). -/
def renewFirst (l : List Peer) (address : String) (ttl : Nat) : List Peer :=
  match l with
  | [] => []
  | p :: rest =>
      if announceMatches address p then { p with ttl := ttl } :: rest
      else p :: renewFirst rest address ttl

/-- The `a` map of an inbound query message; absent fields are undefined.
`port` is kept as an optional number, standing for the
`typeof msg.a.port === 'number'` test. -/
structure MsgArgs where
  id : JsVal
  target : JsVal
  info_hash : JsVal
  token : JsVal
  port : Option Nat
  deriving DecidableEq

/-- An inbound message as processRequest sees it: `a` may be absent. -/
structure Msg where
  a : Option MsgArgs
  deriving DecidableEq

/-- The UDP sender information handed to every handler. -/
structure Rinfo where
  address : String
  port : Nat
  deriving DecidableEq

/-- The body of a `y = 'r'` response datagram built by the handlers. -/
inductive RespBody
  | empty
  | nodes (ns : List RemoteNode)
  | nodesWithToken (token : List Nat) (ns : List RemoteNode)
  | valuesWithToken (token : List Nat) (ps : List Peer)
  deriving DecidableEq

/-- A datagram the node sends back for an inbound query.  `errorReply`
is the BEP-5 error packet `{t, y:'e', e:[code, message]}` the
specification speaks about; the embedded code never constructs one
(Node.prototype.respond only builds `y:'r'` responses). -/
inductive Outgoing
  | response (body : RespBody)
  | errorReply (code : Nat) (message : String)
  deriving DecidableEq

/-- An application event emitted on the node. -/
inductive NodeEvent
  | peerNew (infohash : List Nat) (address : String) (port : Nat)
  | peerDelete (infohash : List Nat) (address : String) (port : Nat)
  deriving DecidableEq

/-- Node.prototype.processAnnouncePeer (node.js L230-280).  The
validation chain silently returns on a missing or non-Buffer token, a
failed verifyToken (never, as verifyToken is constantly true), or a bad
info_hash.  It then reads `this.peers[infohash]` WITHOUT allocating it:
when the key is absent, `peers.some(...)` is a method call on undefined
and raises a TypeError.  Otherwise the first record with the sender's
address is renewed, or a fresh record is appended with a `peer:new`
event; either way `respond(rinfo, msg, {})` replies. -/
def processAnnouncePeer (peers : PeerMap) (a : MsgArgs) (rinfo : Rinfo)
    (peerTimeout : Nat) : Except JsErr (PeerMap × List Outgoing × List NodeEvent) :=
  if !(isBuf a.token) || !(verifyToken a.token) || !(isValid20 a.info_hash) then
    .ok (peers, [], [])
  else
    match a.info_hash with
    | .buf ih =>
        match lookupIH peers ih with
        | none => .error .typeError
        | some l =>
            let address := rinfo.address
            let port := match a.port with | some p => p | none => rinfo.port
            match l.find? (announceMatches address) with
            | some _ =>
                .ok (setIH peers ih (renewFirst l address peerTimeout),
                     [.response .empty], [])
            | none =>
                let peer : Peer := { address := address, port := port, ttl := peerTimeout }
                .ok (setIH peers ih (l ++ [peer]),
                     [.response .empty],
                     [.peerNew ih address port])
    | _ => .error .typeError

/-- Node.prototype.processGetPeers (node.js L206-228): validate
info_hash, issue a token, and answer with stored peer values when the
store has the key, else with the K closest nodes. -/
def processGetPeers (K : Nat) (buckets : List Entry) (peers : PeerMap)
    (a : MsgArgs) : Except JsErr (List Outgoing) :=
  if !(isValid20 a.info_hash) then .ok []
  else
    match a.info_hash with
    | .buf ih =>
        match lookupIH peers ih with
        | none => do
            let ns ← findKClosest K buckets a.info_hash
            pure [.response (.nodesWithToken issueToken ns)]
        | some l =>
            pure [.response (.valuesWithToken issueToken l)]
    | _ => .error .typeError

/-- The node state the request path touches. -/
structure NodeState where
  id : List Nat
  K : Nat
  buckets : List Entry
  peers : PeerMap
  deriving DecidableEq

/-- The method dispatch of Node.prototype.processRequest (node.js
L146-156): `ping` answers `{}`; `find_node` answers with findKClosest of
`msg.a.id` (the source passes the SENDER id, not `a.target`);
`get_peers` and `announce_peer` call their handlers; any other method
name is silently ignored — no error packet is built anywhere on this
path. -/
def dispatch (s1 : NodeState) (type : String) (a : MsgArgs) (rinfo : Rinfo)
    (peerTimeout : Nat) :
    Except JsErr (NodeState × List Outgoing × List NodeEvent) :=
  if type == "ping" then
    pure (s1, [.response .empty], [])
  else if type == "find_node" then do
    let ns ← findKClosest s1.K s1.buckets a.id
    pure (s1, [.response (.nodes ns)], [])
  else if type == "get_peers" then do
    let out ← processGetPeers s1.K s1.buckets s1.peers a
    pure (s1, out, [])
  else if type == "announce_peer" then do
    let r ← processAnnouncePeer s1.peers a rinfo peerTimeout
    pure ({ s1 with peers := r.1 }, r.2.1, r.2.2)
  else
    pure (s1, [], [])

/-- Node.prototype.processRequest (node.js L123-157): drop messages with
no `a` or an invalid 20-byte `a.id`, run the table-update loop, then
dispatch on the method name. -/
def processRequest (s : NodeState) (type : String) (m : Msg) (rinfo : Rinfo)
    (now peerTimeout : Nat) :
    Except JsErr (NodeState × List Outgoing × List NodeEvent) :=
  match m.a with
  | none => .ok (s, [], [])
  | some a =>
      if !(isValid20 a.id) then .ok (s, [], [])
      else do
        let buckets ← observeLoop 3 s.id s.K s.buckets a.id rinfo.address rinfo.port now
        dispatch { s with buckets := buckets } type a rinfo peerTimeout

/-- XOR distance of two 160-bit ids: the big-endian integer of their
word-wise xor (spec section 4.1; no counterpart exists in node.js, which
is what claim C4 is about). -/
def xorDistance (a b : List Nat) : Nat :=
  wordsToNat (List.zipWith (fun x y => Nat.xor x y) a b)

/-- An event of the transaction layer of Node.prototype.request (node.js
L57-82) and Node.prototype.onmessage (L97-121).  Query callbacks are
identified by the order of their registration; `register key` is a
request sent with (possibly colliding) transaction id `key`, `response
key` is an inbound `y='r'` datagram carrying that id, and `fire q` is the
run of the timeout closure created for query `q`. -/
inductive TxEv
  | register (key : Nat)
  | response (key : Nat)
  | fire (q : Nat)

/-- The relevant state of the transaction layer: `entries` is the
`this.queries` object (transaction-id key to the query currently stored
there), `timer` gives each query's pending timeout key (none once cleared
by clearTimeout or consumed by firing; each query builds exactly one
setTimeout, at registration), `invoked` counts the runs of each query's
callback, and `nextQ` allocates query identities. -/
structure TxState where
  entries : Nat → Option Nat
  timer : Nat → Option Nat
  invoked : Nat → Nat
  nextQ : Nat

/-- The empty registry of a fresh node (`this.queries = {}`). -/
def txInit : TxState :=
  { entries := fun _ => none
    timer := fun _ => none
    invoked := fun _ => 0
    nextQ := 0 }

/-- One event of the transaction layer.

`register key` (node.js L70-81): a query object with a fresh timeout is
built and stored at `queries[key]`, silently overwriting any query
already registered under a colliding id (whose timer stays pending).

`response key` (node.js L102-112): if `queries[key]` exists, clear its
timer, invoke its callback, and delete the entry; otherwise drop.

`fire q` (the setTimeout closure, node.js L73-78): runs only while the
timer is pending; it invokes the callback unconditionally, then deletes
`queries[key]` only when that slot still holds this very query. -/
def txStep (s : TxState) : TxEv → TxState
  | .register key =>
      { entries := fun k => if k = key then some s.nextQ else s.entries k
        timer := fun q => if q = s.nextQ then some key else s.timer q
        invoked := s.invoked
        nextQ := s.nextQ + 1 }
  | .response key =>
      match s.entries key with
      | none => s
      | some q =>
          { entries := fun k => if k = key then none else s.entries k
            timer := fun q2 => if q2 = q then none else s.timer q2
            invoked := fun q2 => if q2 = q then s.invoked q2 + 1 else s.invoked q2
            nextQ := s.nextQ }
  | .fire q =>
      match s.timer q with
      | none => s
      | some key =>
          { entries :=
              if s.entries key = some q then
                fun k => if k = key then none else s.entries k
              else s.entries
            timer := fun q2 => if q2 = q then none else s.timer q2
            invoked := fun q2 => if q2 = q then s.invoked q2 + 1 else s.invoked q2
            nextQ := s.nextQ }

/-- Run the transaction layer over a whole interleaving of sends,
responses, and timer firings. -/
def txRun (evs : List TxEv) : TxState :=
  evs.foldl txStep txInit

/-- The inductive invariant of the transaction layer: an invoked query
has no pending timer and owns no registry entry; every callback has run
at most once; a registry entry's query still has its timer pending under
that very key (responses clear the timer before deleting, firing deletes
the current entry); and identities at or above the allocator are
untouched. -/
def TxInv (s : TxState) : Prop :=
  (∀ q, 1 ≤ s.invoked q → s.timer q = none ∧ ∀ k, s.entries k ≠ some q)
    ∧ (∀ q, s.invoked q ≤ 1)
    ∧ (∀ k q, s.entries k = some q → s.timer q = some k)
    ∧ (∀ q, s.nextQ ≤ q → s.timer q = none ∧ s.invoked q = 0 ∧ ∀ k, s.entries k ≠ some q)

/-- The names visible from the body of the inner function `send` of
Node.prototype.sendAnnouncePeer (node.js L171-194): its own and the
enclosing function's bindings (parameters `target`, `token`, `peer`,
`callback`, the local `self`, and the hoisted declaration `send`), the
module scope of lib/dht/node.js (the requires of L1-9 and the hoisted
functions), and the Node.js globals the module touches.  No scope binds
`id`. -/
def sendScopeNames : List String :=
  ["send", "self", "target", "token", "peer", "callback",
   "dgram", "crypto", "util", "Buffer", "EventEmitter", "dht", "bencode", "utils",
   "Node", "Bucket", "RemoteNode",
   "require", "module", "exports", "process", "setTimeout", "clearTimeout"]

/-- Identifier lookup along a scope chain: an unbound name raises a
ReferenceError in (non-strict or strict) JavaScript when read. -/
def jsResolve (scope : List String) (name : String) : Except JsErr String :=
  if scope.contains name then .ok name else .error .referenceError

/-- A datagram handed to `socket.send` via Node.prototype.request. -/
structure Datagram where
  method : String
  targetAddress : String
  targetPort : Nat
  deriving DecidableEq

/-- The body of `send()` inside Node.prototype.sendAnnouncePeer (node.js
L186-193): it builds the argument map
`{ id: self.id, info_hash: id, token: token, port: self.port }` — whose
`info_hash` property reads the free identifier `id` — before
`self.request` could emit anything.  The datagram is produced only if
that identifier resolves. -/
def sendAnnouncePeerSend (_selfId : List Nat) (_selfPort : Nat) (target : Rinfo)
    (_token : JsVal) (_peer : JsVal) : Except JsErr Datagram := do
  let _ ← jsResolve sendScopeNames ("id")
  pure { method := "announce_peer", targetAddress := target.address,
         targetPort := target.port }

/-- Node.prototype.sendAnnouncePeer (node.js L171-194): when the local
port is still 0 the call to `send` is deferred until the `listening`
event (first component false), otherwise it runs at once; either way the
same `send` body eventually executes. -/
def sendAnnouncePeer (selfId : List Nat) (selfPort : Nat) (target : Rinfo)
    (token : JsVal) (peer : JsVal) : Bool × Except JsErr Datagram :=
  if selfPort == 0 then
    (false, sendAnnouncePeerSend selfId selfPort target token peer)
  else
    (true, sendAnnouncePeerSend selfId selfPort target token peer)

/-- A 160-bit id whose last 16-bit word is k and whose other words are
zero. -/
def lowId (k : Nat) : List Nat :=
  List.replicate 9 0 ++ [k]

/-- A fixed sender for the concrete scenarios. -/
def obsRinfo : Rinfo :=
  { address := "10.0.0.1", port := 6881 }

/-- A fresh node: one full-range home bucket, K = 8, empty peer store,
all-zero local id (node.js L41-45). -/
def freshNode : NodeState :=
  { id := List.replicate 10 0
    K := 8
    buckets := [.bucket (Bucket.initial 8)]
    peers := [] }

/-- A ping query from the contact with id `lowId k`. -/
def pingMsg (k : Nat) : Msg :=
  { a := some { id := .buf (lowId k), target := .undef, info_hash := .undef,
                token := .undef, port := none } }

/-- Observe a sequence of contacts by processing one ping query from each
(the table update of processRequest runs before any handler). -/
def observeRun (ks : List Nat) : Except JsErr NodeState :=
  ks.foldlM
    (fun s k => (processRequest s ("ping") (pingMsg k) obsRinfo 0 3600000).map
      (fun r => r.1))
    freshNode

/-- Slots and stored-contact count of a bucket-list element, for stating
the concrete table shapes below. -/
def entrySummary : Entry → Nat × Nat
  | .bucket b => (b.slots, b.nodes.length)
  | .pair _ => (999, 999)

/-- A contact record that is not good (three failed RPCs), stored first
in the bucket containing the C4 target. -/
def c4X : RemoteNode :=
  { id := lowId 5, address := "1.1.1.1", port := 1, firstSeen := 0, lastSeen := 0,
    good := false, bads := 3 }

/-- A good contact stored after `c4X`, though closer to the C4 target. -/
def c4Y : RemoteNode :=
  { id := lowId 1, address := "2.2.2.2", port := 2, firstSeen := 0, lastSeen := 0,
    good := true, bads := 0 }

/-- The lower-half bucket of the C4 table, holding `c4X` then `c4Y`. -/
def c4B1 : Bucket :=
  { start := List.replicate 10 0, end_ := 32767 :: List.replicate 9 65535,
    first := true, nodes := [(nodeKey c4X, c4X), (nodeKey c4Y, c4Y)], slots := 6 }

/-- The upper-half neighbor bucket of the C4 table, also holding `c4X`. -/
def c4B2 : Bucket :=
  { start := 32768 :: List.replicate 9 0, end_ := List.replicate 10 65535,
    first := false, nodes := [(nodeKey c4X, c4X)], slots := 7 }

/-- The two-bucket table of the C4 counterexample. -/
def c4Buckets : List Entry :=
  [.bucket c4B1, .bucket c4B2]

/-- The C4 lookup target, id zero. -/
def c4Target : List Nat :=
  List.replicate 10 0

/-- Claim C4 at a given table and target: every successful findKClosest
result has at most K contacts, is sorted by non-decreasing XOR distance
to the target, has no duplicates, and contains no non-good contact. -/
def c4ClaimAt (K : Nat) (buckets : List Entry) (t : List Nat) : Prop :=
  ∀ ns, findKClosest K buckets (.buf t) = .ok ns →
    ns.length ≤ K
      ∧ List.Chain' (fun a b => xorDistance a.id t ≤ xorDistance b.id t) ns
      ∧ ns.Nodup
      ∧ ∀ c ∈ ns, c.good = true

/-- The contacts the previous neighbor contributes when findKClosest
runs short of K: the nodes of the element before the containing bucket,
when index - 1 >= 0, else nothing. -/
def prevPart (buckets : List Entry) (index : Nat) : List RemoteNode :=
  if 1 ≤ index then ((buckets[index - 1]?).map entryNodes).getD [] else []

/-- The contacts the next neighbor contributes when findKClosest runs
short of K: the nodes of the element after the containing bucket, when
index + 1 < length, else nothing. -/
def nextPart (buckets : List Entry) (index : Nat) : List RemoteNode :=
  if index + 1 < buckets.length then ((buckets[index + 1]?).map entryNodes).getD [] else []

/-- The bucket [0, 0x2ffff] (words big-endian), a closed interval with
lo < hi exercising a carry across a 16-bit word boundary. -/
def c3Bucket : Bucket :=
  { start := List.replicate 10 0
    end_ := List.replicate 8 0 ++ [2, 65535]
    first := false
    nodes := []
    slots := 8 }

/-- The result of inserting the contact with id `lowId 7` twice into a
fresh bucket. -/
def c5Once : Bucket × Bool :=
  (Bucket.initial 8).add (.buf (lowId 7)) (.rinfo ("7.7.7.7") 7001) 0

/-- Second insert of the identical contact into the same bucket. -/
def c5Twice : Bucket × Bool :=
  c5Once.1.add (.buf (lowId 7)) (.rinfo ("7.7.7.7") 7001) 5

/-- An announce query carrying the token the node itself issues, sent
from address 8.8.8.8, for an infohash whose peer list exists and is
empty. -/
def c6Args : MsgArgs :=
  { id := .buf (lowId 3), target := .undef, info_hash := .buf (lowId 4),
    token := .buf issueToken, port := some 7000 }

/-- The sender of the forged announce: not the address any token was
issued for (issueToken binds no address at all). -/
def c6Rinfo : Rinfo :=
  { address := "8.8.8.8", port := 9999 }

/-- An announce whose token verifies (a Buffer, and verifyToken is
constantly true) naming an infohash the peer store has never seen. -/
def c9Args : MsgArgs :=
  { id := .buf (lowId 3), target := .undef, info_hash := .buf (lowId 4),
    token := .buf [1, 2, 3, 4], port := some 7000 }

/-- A well-formed query whose method name is none of
ping / find_node / get_peers / announce_peer. -/
def c8UnknownMsg : Msg :=
  pingMsg 1

/-- An announce query with no token at all. -/
def c8NoTokenArgs : MsgArgs :=
  { id := .buf (lowId 3), target := .undef, info_hash := .buf (lowId 4),
    token := .undef, port := none }

/-- The single record of the C7 peer store: announced earlier from the
sender address of `obsRinfo`, with a nearly expired ttl. -/
def c7Record : Peer :=
  { address := "10.0.0.1", port := 1111, ttl := 5 }

/-- A peer store holding one record for infohash `lowId 4`. -/
def c7Peers : PeerMap :=
  [(lowId 4, [c7Record])]

/-- The contact record created by observing `pingMsg 1` from `obsRinfo`
on a fresh node at time 0. -/
def obsContact : RemoteNode :=
  { id := lowId 1, address := "10.0.0.1", port := 6881, firstSeen := 0,
    lastSeen := 0, good := true, bads := 0 }

/-- The node state after that single observe: the home bucket holds the
one contact and seven free slots. -/
def obsState1 : NodeState :=
  { freshNode with
      buckets := [.bucket { Bucket.initial 8 with
                              nodes := [(nodeKey obsContact, obsContact)]
                              slots := 7 }] }

/-- Claim C8 on the unknown-method side, at the concrete fresh node and
the well-formed query `c8UnknownMsg` with method name foo: the responder
answers it with the error reply 204 Method Unknown. -/
def c8ClaimUnknown : Prop :=
  ∃ r, processRequest freshNode ("foo") c8UnknownMsg obsRinfo 0 3600000 = .ok r
    ∧ Outgoing.errorReply 204 ("Method Unknown") ∈ r.2.1

/-- Claim C8 on the announce side, at the concrete announce whose token
fails validation: the responder answers it with the error reply 203 Bad
Token. -/
def c8ClaimBadToken : Prop :=
  ∃ r, processAnnouncePeer ([] : PeerMap) c8NoTokenArgs obsRinfo 3600000 = .ok r
    ∧ Outgoing.errorReply 203 ("Bad Token") ∈ r.2.1

/-- C1: observing eight distinct contacts fills the single home bucket
(slots 0, eight contacts), and the ninth observe — which per the claim
should replace the full home bucket by its two halves — instead raises a
TypeError: Bucket.prototype.split redistributes over the string keys of
`this.nodes`, and `readUInt16BE` on a string is not a function, so the
split never completes, no bucket is ever replaced by its halves, and the
request is dropped.  The claim's split behaviour never happens on any
reachable table. -/
theorem c1_full_home_bucket_split_raises :
    (observeRun [1, 2, 3, 4, 5, 6, 7, 8]).map (fun s => s.buckets.map entrySummary)
        = .ok [(0, 8)]
      ∧ observeRun [1, 2, 3, 4, 5, 6, 7, 8, 9] = .error .typeError := by
  constructor
  · rfl
  · rfl

/-- C3: splitting the bucket [lo, hi] = [0, 0x2ffff] must, per the claim,
give hi_left = floor((lo+hi)/2) = 0x17fff (98303).  The handwritten word
loop instead produces hi_left = 0xffff (65535) and lo_right = 0x10000
(65536): the word-by-word right shift never moves the low bit of a more
significant word into the word below it, so the carries do not propagate
and the midpoint is wrong whenever the division crosses a word boundary. -/
theorem c3_midpoint_carry_bug :
    (c3Bucket.split 8).map
        (fun ht => (wordsToNat ht.1.end_, wordsToNat ht.2.start))
        = .ok (65535, 65536)
      ∧ (wordsToNat c3Bucket.start + wordsToNat c3Bucket.end_) / 2 = 98303
      ∧ (65535 : Nat) ≠ 98303 := by
  refine ⟨rfl, rfl, by decide⟩

/-- C5: re-inserting a contact whose id is already present must, per the
claim, leave the free capacity unchanged.  Bucket.prototype.add never
checks for the id: the second insert overwrites the stored contact yet
decrements `slots` again, so after two inserts of one id the bucket holds
one contact but reports six free slots instead of seven — eight repeats
of one contact make the bucket full with a single distinct contact. -/
theorem c5_duplicate_insert_consumes_slot :
    c5Once.2 = true ∧ c5Once.1.slots = 7 ∧ c5Once.1.nodes.length = 1
      ∧ c5Twice.2 = true ∧ c5Twice.1.slots = 6 ∧ c5Twice.1.nodes.length = 1 := by
  refine ⟨rfl, rfl, rfl, rfl, rfl, rfl⟩

/-- C6: the claim requires verify(b, issue(a)) = false for b distinct
from a.  In the source, issueToken returns a constant 4-byte buffer
bound to no address and verifyToken returns true for every token, so a
token is accepted from every address: an announce carrying issueToken's
token from 8.8.8.8 is accepted and recorded even though no token was
ever issued to that address. -/
theorem c6_token_accepted_from_any_address :
    (∀ t, verifyToken t = true)
      ∧ processAnnouncePeer [(lowId 4, [])] c6Args c6Rinfo 3600000
          = .ok ([(lowId 4, [{ address := "8.8.8.8", port := 7000, ttl := 3600000 }])],
                 [.response .empty],
                 [.peerNew (lowId 4) ("8.8.8.8") 7000]) := by
  exact ⟨fun _ => rfl, rfl⟩

/-- C10: the inner `send` of Node.prototype.sendAnnouncePeer reads the
identifier `id` for its `info_hash` field, and no enclosing scope binds
`id`; evaluating the argument object therefore raises a ReferenceError
before `self.request` runs, so no announce datagram is ever emitted,
whether the socket was already bound or the call was deferred to the
`listening` event. -/
theorem c10_sendAnnouncePeer_reference_error
    (selfId : List Nat) (selfPort : Nat) (target : Rinfo) (token peer : JsVal) :
    (sendAnnouncePeer selfId selfPort target token peer).2
      = .error .referenceError := by
  unfold sendAnnouncePeer sendAnnouncePeerSend jsResolve
  by_cases h : selfPort == 0 <;> simp [h, sendScopeNames]

lemma entryGetNodes_ok {e : Entry} {ns : List RemoteNode}
    (h : entryGetNodes e = .ok ns) : ns = entryNodes e := by
  cases e with
  | bucket b => simpa [entryGetNodes, entryNodes] using h.symm
  | pair p => simp [entryGetNodes] at h

lemma mapM'_except_spec {α β : Type} {f : α → Except JsErr β} :
    ∀ {l : List α} {fs : List β}, l.mapM' f = .ok fs →
      fs.length = l.length
        ∧ ∀ (j : Nat) (a : α), l[j]? = some a → ∃ b, fs[j]? = some b ∧ f a = .ok b := by
  intro l
  induction l with
  | nil =>
      intro fs h
      have hfs : fs = [] := by simpa [List.mapM', pure, Except.pure] using h.symm
      subst hfs
      refine ⟨rfl, ?_⟩
      intro j a hj
      simp at hj
  | cons a l ih =>
      intro fs h
      simp only [List.mapM', Bind.bind, Except.bind] at h
      cases hfa : f a with
      | error e => simp only [hfa] at h; simp at h
      | ok b =>
          simp only [hfa] at h
          cases hm : l.mapM' f with
          | error e => simp only [hm] at h; simp at h
          | ok bs =>
              simp only [hm] at h
              have hfs : fs = b :: bs := by simpa [pure, Except.pure] using h.symm
              subst hfs
              obtain ⟨hlen, hidx⟩ := ih hm
              refine ⟨by simp [hlen], ?_⟩
              intro j x hj
              cases j with
              | zero =>
                  rw [List.getElem?_cons_zero] at hj
                  cases Option.some.inj hj
                  exact ⟨b, by simp, hfa⟩
              | succ j2 =>
                  rw [List.getElem?_cons_succ] at hj
                  obtain ⟨b2, hb2, hf2⟩ := hidx j2 x hj
                  refine ⟨b2, ?_, hf2⟩
                  rw [List.getElem?_cons_succ]
                  exact hb2

lemma mapM_except_spec {α β : Type} {f : α → Except JsErr β} {l : List α} {fs : List β}
    (h : l.mapM f = .ok fs) :
    fs.length = l.length
      ∧ ∀ (j : Nat) (a : α), l[j]? = some a → ∃ b, fs[j]? = some b ∧ f a = .ok b :=
  mapM'_except_spec (by rw [List.mapM'_eq_mapM]; exact h)

lemma findIdx?_go_spec {α : Type} {p : α → Bool} :
    ∀ (l : List α) (s i : Nat), List.findIdx? p l s = some i →
      s ≤ i ∧ (∃ a, l[i - s]? = some a ∧ p a = true)
        ∧ ∀ j, j < i - s → ∃ b, l[j]? = some b ∧ p b = false := by
  intro l
  induction l with
  | nil =>
      intro s i h
      simp [List.findIdx?] at h
  | cons a l ih =>
      intro s i h
      rw [show List.findIdx? p (a :: l) s
            = if p a then some s else List.findIdx? p l (s + 1) from rfl] at h
      by_cases hpa : p a = true
      · rw [if_pos hpa] at h
        have hi : s = i := Option.some.inj h
        subst hi
        refine ⟨Nat.le_refl s, ⟨a, by simp [Nat.sub_self], hpa⟩, ?_⟩
        intro j hj
        exact absurd hj (by omega)
      · rw [if_neg hpa] at h
        obtain ⟨hle, ⟨a2, ha2, hpa2⟩, hprev⟩ := ih (s + 1) i h
        refine ⟨by omega, ⟨a2, ?_, hpa2⟩, ?_⟩
        · have hsub : i - s = (i - (s + 1)) + 1 := by omega
          rw [hsub, List.getElem?_cons_succ]
          exact ha2
        · intro j hj
          cases j with
          | zero =>
              exact ⟨a, by simp, (Bool.not_eq_true (p a)) ▸ hpa⟩
          | succ j2 =>
              have hj2 : j2 < i - (s + 1) := by omega
              obtain ⟨b, hb, hpb⟩ := hprev j2 hj2
              refine ⟨b, ?_, hpb⟩
              rw [List.getElem?_cons_succ]
              exact hb

lemma findIdx?_spec {α : Type} {p : α → Bool} {l : List α} {i : Nat}
    (h : l.findIdx? p = some i) :
    (∃ a, l[i]? = some a ∧ p a = true)
      ∧ ∀ j, j < i → ∃ b, l[j]? = some b ∧ p b = false := by
  obtain ⟨-, h1, h2⟩ := findIdx?_go_spec l 0 i h
  constructor
  · simpa using h1
  · intro j hj
    exact h2 j (by omega)

lemma prevExtend_eq {buckets : List Entry} {index : Nat} {bnodes nodes1 : List RemoteNode}
    (h : prevExtend buckets index bnodes = .ok nodes1) :
    nodes1 = bnodes ++ prevPart buckets index := by
  unfold prevExtend at h
  unfold prevPart
  by_cases hi : 1 ≤ index
  · rw [if_pos hi] at h
    rw [if_pos hi]
    cases hp : buckets[index - 1]? with
    | none =>
        simp only [hp] at h
        have hx : bnodes = nodes1 := by simpa [pure, Except.pure] using h
        simp [hx.symm]
    | some e =>
        simp only [hp] at h
        cases hge : entryGetNodes e with
        | error err => simp only [hge] at h; simp at h
        | ok pn =>
            simp only [hge, Bind.bind, Except.bind, pure, Except.pure] at h
            have hx : bnodes ++ pn = nodes1 := by simpa using h
            rw [← hx, entryGetNodes_ok hge]
            simp
  · rw [if_neg hi] at h
    rw [if_neg hi]
    have hx : bnodes = nodes1 := by simpa [pure, Except.pure] using h
    simp [hx.symm]

lemma nextExtend_eq {buckets : List Entry} {index : Nat} {nodes1 nodes : List RemoteNode}
    (h : nextExtend buckets index nodes1 = .ok nodes) :
    nodes = nodes1 ++ nextPart buckets index := by
  unfold nextExtend at h
  unfold nextPart
  by_cases h2 : index + 1 < buckets.length
  · rw [if_pos h2] at h
    rw [if_pos h2]
    cases hq : buckets[index + 1]? with
    | none =>
        simp only [hq] at h
        have hx : nodes1 = nodes := by simpa [pure, Except.pure] using h
        simp [hx.symm]
    | some e =>
        simp only [hq] at h
        cases hge : entryGetNodes e with
        | error err => simp only [hge] at h; simp at h
        | ok nn =>
            simp only [hge, Bind.bind, Except.bind, pure, Except.pure] at h
            have hx : nodes1 ++ nn = nodes := by simpa using h
            rw [← hx, entryGetNodes_ok hge]
            simp
  · rw [if_neg h2] at h
    rw [if_neg h2]
    have hx : nodes1 = nodes := by simpa [pure, Except.pure] using h
    simp [hx.symm]

/-- C4, counterexample: at the concrete two-bucket table `c4Buckets` and
target zero, findKClosest returns [c4X, c4Y, c4X] — a contact with good =
false, out of XOR order (distances 5, 1, 5), and duplicated — so the
claim that every result is sorted by XOR distance, duplicate-free, and
free of bad contacts is false. -/
theorem c4_counterexample : ¬ c4ClaimAt 8 c4Buckets c4Target := by
  intro h
  exact absurd ((h [c4X, c4Y, c4X] rfl).2.2.2 c4X (by decide)) (by decide)

/-- C4, amended: findKClosest returns at most K contacts, and the result
is exactly the stored-order concatenation the code builds — the nodes of
the first bucket-list element containing the target (every earlier
element does not contain it), followed, when that bucket holds fewer
than K contacts, by the previous neighbor's nodes and then the next
neighbor's nodes — sliced to the first K.  In particular every returned
contact comes from the containing bucket or one of its two immediate
neighbors, in stored bucket order; the code neither sorts by XOR
distance, nor removes duplicates across neighboring buckets, nor
excludes contacts whose good flag is false. -/
theorem c4_amended (K : Nat) (buckets : List Entry) (idv : JsVal)
    (ns : List RemoteNode) (h : findKClosest K buckets idv = .ok ns) :
    ns.length ≤ K ∧
    ∃ index e,
      buckets[index]? = some e
        ∧ entryContains e idv = .ok true
        ∧ (∀ j, j < index → ∃ f, buckets[j]? = some f ∧ entryContains f idv = .ok false)
        ∧ ((entryNodes e).length < K
              ∧ ns = (entryNodes e ++ prevPart buckets index ++ nextPart buckets index).take K
            ∨ ¬ (entryNodes e).length < K ∧ ns = (entryNodes e).take K) := by
  unfold findKClosest at h
  cases hf : buckets.mapM (fun e => entryContains e idv) with
  | error e => rw [hf] at h; exact absurd h (by simp [Bind.bind, Except.bind])
  | ok flags =>
      rw [hf] at h
      simp only [Bind.bind, Except.bind] at h
      cases hidx : List.findIdx? (fun f => f == true) flags with
      | none => simp only [hidx] at h; simp at h
      | some index =>
          simp only [hidx] at h
          cases hbe : buckets[index]? with
          | none => simp only [hbe] at h; simp at h
          | some e =>
              simp only [hbe] at h
              cases hge : entryGetNodes e with
              | error err => simp only [hge] at h; simp at h
              | ok bnodes =>
                  simp only [hge] at h
                  cases hne : neighborExtend K buckets index bnodes with
                  | error err => simp only [hne] at h; simp at h
                  | ok nodes =>
                      simp only [hne] at h
                      have hns : ns = nodes.take K := by
                        simpa [pure, Except.pure] using h.symm
                      have hbn : bnodes = entryNodes e := entryGetNodes_ok hge
                      obtain ⟨hmlen, hmidx⟩ := mapM_except_spec hf
                      obtain ⟨⟨flg, hflg, hflgt⟩, hprevf⟩ := findIdx?_spec hidx
                      have hcontains : entryContains e idv = .ok true := by
                        obtain ⟨b, hb, hcb⟩ := hmidx index e hbe
                        rw [hflg] at hb
                        have hbf : flg = b := Option.some.inj hb
                        have hbt : b = true := by
                          rw [← hbf]
                          exact eq_of_beq hflgt
                        rw [← hbt]
                        exact hcb
                      have hpriors : ∀ j, j < index →
                          ∃ f2, buckets[j]? = some f2 ∧ entryContains f2 idv = .ok false := by
                        intro j hj
                        have hidxlt : index < flags.length := (List.getElem?_eq_some.1 hflg).1
                        have hjlt : j < buckets.length := by omega
                        have hfj : buckets[j]? = some (buckets[j]) :=
                          List.getElem?_eq_getElem hjlt
                        obtain ⟨b2, hb2, hcb2⟩ := hmidx j (buckets[j]) hfj
                        obtain ⟨fb, hfb, hfbf⟩ := hprevf j hj
                        rw [hfb] at hb2
                        have hbeq : fb = b2 := Option.some.inj hb2
                        have hb2f : b2 = false := by
                          rw [← hbeq]
                          have hnt : ¬ fb = true := by
                            intro hcontra
                            rw [hcontra] at hfbf
                            simp at hfbf
                          exact (Bool.not_eq_true fb) ▸ hnt
                        rw [hb2f] at hcb2
                        exact ⟨buckets[j], hfj, hcb2⟩
                      refine ⟨by simp [hns, List.length_take_le], index, e, hbe,
                        hcontains, hpriors, ?_⟩
                      unfold neighborExtend at hne
                      by_cases hlen : bnodes.length < K
                      · rw [if_pos hlen] at hne
                        simp only [Bind.bind, Except.bind] at hne
                        cases hpe : prevExtend buckets index bnodes with
                        | error err => simp only [hpe] at hne; simp at hne
                        | ok nodes1 =>
                            simp only [hpe] at hne
                            have h1 := prevExtend_eq hpe
                            have h2 := nextExtend_eq hne
                            left
                            refine ⟨by rw [← hbn]; exact hlen, ?_⟩
                            rw [hns, h2, h1, hbn]
                      · rw [if_neg hlen] at hne
                        have hx : bnodes = nodes := by simpa [pure, Except.pure] using hne
                        right
                        refine ⟨by rw [← hbn]; exact hlen, ?_⟩
                        rw [hns, ← hx, hbn]

/-- Witness for the amended C4 theorem at the concrete table of the
counterexample: index 0 is the containing bucket, its two contacts fall
short of K = 8, and the result is its nodes followed by the next
neighbor's, sliced to 8, giving [c4X, c4Y, c4X]. -/
theorem c4_amended_witness :
    ([c4X, c4Y, c4X] : List RemoteNode).length ≤ 8 ∧
    ∃ index e,
      c4Buckets[index]? = some e
        ∧ entryContains e (.buf c4Target) = .ok true
        ∧ (∀ j, j < index →
            ∃ f, c4Buckets[j]? = some f ∧ entryContains f (.buf c4Target) = .ok false)
        ∧ ((entryNodes e).length < 8
              ∧ [c4X, c4Y, c4X]
                  = (entryNodes e ++ prevPart c4Buckets index ++ nextPart c4Buckets index).take 8
            ∨ ¬ (entryNodes e).length < 8
              ∧ ([c4X, c4Y, c4X] : List RemoteNode) = (entryNodes e).take 8) :=
  c4_amended 8 c4Buckets (.buf c4Target) [c4X, c4Y, c4X] rfl

lemma announceMatches_iff (addr : String) (p : Peer) :
    announceMatches addr p = true ↔ p.address = addr := by
  simp [announceMatches]

lemma renewFirst_length (l : List Peer) (addr : String) (t : Nat) :
    (renewFirst l addr t).length = l.length := by
  induction l with
  | nil => rfl
  | cons p rest ih =>
      unfold renewFirst
      by_cases hm : announceMatches addr p
      · simp [hm]
      · simp [hm, ih]

lemma renewFirst_addrport (l : List Peer) (addr : String) (t : Nat) :
    (renewFirst l addr t).map (fun p => (p.address, p.port))
      = l.map (fun p => (p.address, p.port)) := by
  induction l with
  | nil => rfl
  | cons p rest ih =>
      unfold renewFirst
      by_cases hm : announceMatches addr p
      · simp [hm]
      · simp [hm, ih]

lemma renewFirst_renews {l : List Peer} {addr : String} (t : Nat)
    (hex : ∃ p ∈ l, p.address = addr) :
    ∃ p2 ∈ renewFirst l addr t, p2.address = addr ∧ p2.ttl = t := by
  induction l with
  | nil => simp at hex
  | cons p rest ih =>
      unfold renewFirst
      by_cases hm : announceMatches addr p
      · refine ⟨{ p with ttl := t }, ?_, ?_, rfl⟩
        · simp [hm]
        · exact (announceMatches_iff addr p).1 hm
      · rcases hex with ⟨q, hq, hqa⟩
        rcases List.mem_cons.1 hq with rfl | hq2
        · exact absurd ((announceMatches_iff addr q).2 hqa) hm
        · rcases ih ⟨q, hq2, hqa⟩ with ⟨p2, hp2, hpa, hpt⟩
          exact ⟨p2, by simp [hm, hp2], hpa, hpt⟩

/-- C7: an announce whose infohash already has a record with the sender's
address (whatever its port, since the duplicate test compares the port to
itself) renews that record's ttl, appends nothing (the record count and
the address/port contents of the list are unchanged, realizing new =
false), emits no peer:new, and answers `{}`. -/
theorem c7_reannounce_renews_no_new (peers : PeerMap) (a : MsgArgs) (rinfo : Rinfo)
    (pt : Nat) (ih : List Nat) (l : List Peer)
    (htok : isBuf a.token = true)
    (hih : a.info_hash = .buf ih)
    (hvalid : isValid20 a.info_hash = true)
    (hl : lookupIH peers ih = some l)
    (hex : ∃ p ∈ l, p.address = rinfo.address) :
    processAnnouncePeer peers a rinfo pt
        = .ok (setIH peers ih (renewFirst l rinfo.address pt), [.response .empty], [])
      ∧ (renewFirst l rinfo.address pt).length = l.length
      ∧ (renewFirst l rinfo.address pt).map (fun p => (p.address, p.port))
          = l.map (fun p => (p.address, p.port))
      ∧ ∃ p2 ∈ renewFirst l rinfo.address pt, p2.address = rinfo.address ∧ p2.ttl = pt := by
  have hfind : ∃ q, l.find? (announceMatches rinfo.address) = some q := by
    rcases hex with ⟨p, hp, hpa⟩
    have hs : (l.find? (announceMatches rinfo.address)).isSome :=
      List.find?_isSome.2 ⟨p, hp, (announceMatches_iff rinfo.address p).2 hpa⟩
    exact Option.isSome_iff_exists.1 hs
  rcases hfind with ⟨q, hq⟩
  refine ⟨?_, renewFirst_length l rinfo.address pt,
    renewFirst_addrport l rinfo.address pt, renewFirst_renews pt hex⟩
  have hvalid2 : isValid20 (JsVal.buf ih) = true := by rw [← hih]; exact hvalid
  unfold processAnnouncePeer
  simp only [htok, hvalid, hvalid2, verifyToken, Bool.not_true, Bool.or_false,
    Bool.false_or, Bool.or_self, if_false, hih, hl, hq, Bool.false_eq_true]

/-- Witness for the C7 theorem: re-announcing from the address of the
stored record `c7Record` renews it and emits nothing new. -/
theorem c7_witness :
    processAnnouncePeer c7Peers c9Args obsRinfo 3600000
        = .ok (setIH c7Peers (lowId 4) (renewFirst [c7Record] obsRinfo.address 3600000),
               [.response .empty], [])
      ∧ (renewFirst [c7Record] obsRinfo.address 3600000).length
          = ([c7Record] : List Peer).length
      ∧ (renewFirst [c7Record] obsRinfo.address 3600000).map (fun p => (p.address, p.port))
          = ([c7Record] : List Peer).map (fun p => (p.address, p.port))
      ∧ ∃ p2 ∈ renewFirst [c7Record] obsRinfo.address 3600000,
          p2.address = obsRinfo.address ∧ p2.ttl = 3600000 :=
  c7_reannounce_renews_no_new c7Peers c9Args obsRinfo 3600000 (lowId 4) [c7Record]
    rfl rfl rfl rfl ⟨c7Record, by simp, rfl⟩

/-- C8, counterexample: the responder stays silent in both rejection
cases.  A well-formed query with unknown method name foo produces no
outgoing packet at all (the dispatch falls into the silent `// Ignore`
branch), and an announce_peer whose token fails validation is dropped by
the early `return` with no reply — no error packet {204, Method Unknown}
or {203, Bad Token} is ever built. -/
theorem c8_counterexample : ¬ c8ClaimUnknown ∧ ¬ c8ClaimBadToken := by
  constructor
  · rintro ⟨r, hr, hmem⟩
    rw [show processRequest freshNode ("foo") c8UnknownMsg obsRinfo 0 3600000
          = Except.ok (obsState1, ([] : List Outgoing), ([] : List NodeEvent)) from rfl] at hr
    cases Except.ok.inj hr
    simp at hmem
  · rintro ⟨r, hr, hmem⟩
    rw [show processAnnouncePeer ([] : PeerMap) c8NoTokenArgs obsRinfo 3600000
          = Except.ok (([] : PeerMap), ([] : List Outgoing), ([] : List NodeEvent)) from rfl] at hr
    cases Except.ok.inj hr
    simp at hmem

/-- C8, amended: the responder rejects by silence, not by error replies.
An announce_peer whose token is missing or not a Buffer returns without
touching the peer store and without sending anything, and a query whose
method name is none of ping / find_node / get_peers / announce_peer is
ignored: the request produces no outgoing packet and no event (the
sender is still observed into the routing table first). -/
theorem c8_amended_silent_drop :
    (∀ (peers : PeerMap) (a : MsgArgs) (rinfo : Rinfo) (pt : Nat),
        isBuf a.token = false →
        processAnnouncePeer peers a rinfo pt = .ok (peers, [], []))
      ∧ (∀ (s : NodeState) (type : String) (m : Msg) (rinfo : Rinfo) (now pt : Nat)
            (r : NodeState × List Outgoing × List NodeEvent),
          processRequest s type m rinfo now pt = .ok r →
          type ≠ "ping" → type ≠ "find_node" → type ≠ "get_peers" →
          type ≠ "announce_peer" → r.2.1 = [] ∧ r.2.2 = []) := by
  constructor
  · intro peers a rinfo pt h
    unfold processAnnouncePeer
    simp [h]
  · intro s type m rinfo now pt r h h1 h2 h3 h4
    have e1 : (type == "ping") = false := beq_eq_false_iff_ne.2 h1
    have e2 : (type == "find_node") = false := beq_eq_false_iff_ne.2 h2
    have e3 : (type == "get_peers") = false := beq_eq_false_iff_ne.2 h3
    have e4 : (type == "announce_peer") = false := beq_eq_false_iff_ne.2 h4
    unfold processRequest at h
    cases hma : m.a with
    | none =>
        simp only [hma] at h
        cases Except.ok.inj h
        exact ⟨rfl, rfl⟩
    | some a =>
        simp only [hma] at h
        by_cases hid : (!(isValid20 a.id)) = true
        · rw [if_pos hid] at h
          cases Except.ok.inj h
          exact ⟨rfl, rfl⟩
        · rw [if_neg hid] at h
          simp only [Bind.bind, Except.bind] at h
          cases hob : observeLoop 3 s.id s.K s.buckets a.id rinfo.address rinfo.port now with
          | error e => simp only [hob] at h; simp at h
          | ok buckets =>
              simp only [hob] at h
              unfold dispatch at h
              rw [if_neg (by simp [e1]), if_neg (by simp [e2]), if_neg (by simp [e3]),
                if_neg (by simp [e4])] at h
              cases Except.ok.inj h
              exact ⟨rfl, rfl⟩

/-- Witness for the amended C8 theorem: the announce with no token is
dropped silently, and the foo query from the state reached by observing
its sender produces no packet and no event. -/
theorem c8_witness :
    processAnnouncePeer ([] : PeerMap) c8NoTokenArgs obsRinfo 3600000
        = .ok (([] : PeerMap), [], [])
      ∧ ((obsState1, ([] : List Outgoing), ([] : List NodeEvent)).2.1 = []
          ∧ (obsState1, ([] : List Outgoing), ([] : List NodeEvent)).2.2 = []) :=
  ⟨c8_amended_silent_drop.1 ([] : PeerMap) c8NoTokenArgs obsRinfo 3600000 rfl,
   c8_amended_silent_drop.2 freshNode ("foo") c8UnknownMsg obsRinfo 0 3600000
     (obsState1, [], []) rfl (by decide) (by decide) (by decide) (by decide)⟩

lemma setIH_keys {m : PeerMap} {k : List Nat} {l : List Peer} (v : List Peer)
    (h : lookupIH m k = some l) : (setIH m k v).map Prod.fst = m.map Prod.fst := by
  have hfind : ∃ kv, m.find? (fun kv => kv.1 == k) = some kv := by
    unfold lookupIH at h
    cases hf : m.find? (fun kv => kv.1 == k) with
    | none => rw [hf] at h; simp at h
    | some kv => exact ⟨kv, rfl⟩
  rcases hfind with ⟨kv, hf⟩
  have hmem := List.mem_of_find?_eq_some hf
  have hpkv := List.find?_some hf
  have hany : m.any (fun kv => kv.1 == k) = true :=
    List.any_eq_true.2 ⟨kv, hmem, hpkv⟩
  unfold setIH
  rw [if_pos hany, List.map_map]
  apply List.map_congr_left
  intro kv2 hkv2
  by_cases hk : (kv2.1 == k) = true
  · simp only [Function.comp, hk, if_true]
    exact (eq_of_beq hk).symm
  · simp only [Function.comp, hk, Bool.false_eq_true, if_false]

lemma processAnnouncePeer_keys {peers : PeerMap} {a : MsgArgs} {rinfo : Rinfo}
    {pt : Nat} {pr : PeerMap × List Outgoing × List NodeEvent}
    (h : processAnnouncePeer peers a rinfo pt = .ok pr) :
    pr.1.map Prod.fst = peers.map Prod.fst := by
  unfold processAnnouncePeer at h
  by_cases hg : (!(isBuf a.token) || !(verifyToken a.token) || !(isValid20 a.info_hash)) = true
  · rw [if_pos hg] at h
    cases Except.ok.inj h
    rfl
  · rw [if_neg hg] at h
    cases hih : a.info_hash with
    | buf ih =>
        simp only [hih] at h
        cases hl : lookupIH peers ih with
        | none => simp only [hl] at h; simp at h
        | some l =>
            simp only [hl] at h
            cases hq : l.find? (announceMatches rinfo.address) with
            | none =>
                simp only [hq] at h
                cases Except.ok.inj h
                exact setIH_keys _ hl
            | some q =>
                simp only [hq] at h
                cases Except.ok.inj h
                exact setIH_keys _ hl
    | str ws => simp only [hih] at h; simp at h
    | undef => simp only [hih] at h; simp at h

/-- C9: an announce_peer whose token and 20-byte info_hash pass
validation, naming an infohash the peer store has no list for, raises a
TypeError inside the handler (`this.peers[infohash]` is undefined and
`peers.some` is a call on undefined): no record is added, no event is
emitted, and no response is sent.  And no request-path operation ever
allocates a per-infohash list: processing any message leaves the key
set of the peer store exactly as it was, so the first announce for a
fresh infohash can never succeed. -/
theorem c9_fresh_infohash_announce_throws :
    (∀ (peers : PeerMap) (a : MsgArgs) (rinfo : Rinfo) (pt : Nat) (ih : List Nat),
        isBuf a.token = true → a.info_hash = .buf ih →
        isValid20 a.info_hash = true → lookupIH peers ih = none →
        processAnnouncePeer peers a rinfo pt = .error .typeError)
      ∧ (∀ (s : NodeState) (type : String) (m : Msg) (rinfo : Rinfo) (now pt : Nat)
            (r : NodeState × List Outgoing × List NodeEvent),
          processRequest s type m rinfo now pt = .ok r →
          r.1.peers.map Prod.fst = s.peers.map Prod.fst) := by
  constructor
  · intro peers a rinfo pt ih htok hih hvalid hl
    have hvalid2 : isValid20 (JsVal.buf ih) = true := by rw [← hih]; exact hvalid
    unfold processAnnouncePeer
    simp only [htok, hvalid, hvalid2, verifyToken, Bool.not_true, Bool.or_false,
      Bool.false_or, Bool.or_self, if_false, hih, hl, Bool.false_eq_true]
  · intro s type m rinfo now pt r h
    unfold processRequest at h
    cases hma : m.a with
    | none =>
        simp only [hma] at h
        cases Except.ok.inj h
        rfl
    | some a =>
        simp only [hma] at h
        by_cases hid : (!(isValid20 a.id)) = true
        · rw [if_pos hid] at h
          cases Except.ok.inj h
          rfl
        · rw [if_neg hid] at h
          simp only [Bind.bind, Except.bind] at h
          cases hob : observeLoop 3 s.id s.K s.buckets a.id rinfo.address rinfo.port now with
          | error e => simp only [hob] at h; simp at h
          | ok buckets =>
              simp only [hob] at h
              unfold dispatch at h
              by_cases t1 : (type == "ping") = true
              · rw [if_pos t1] at h
                cases Except.ok.inj h
                rfl
              · rw [if_neg t1] at h
                by_cases t2 : (type == "find_node") = true
                · rw [if_pos t2] at h
                  simp only [Bind.bind, Except.bind] at h
                  cases hfk : findKClosest s.K buckets a.id with
                  | error e => simp only [hfk] at h; simp at h
                  | ok ns =>
                      simp only [hfk] at h
                      cases Except.ok.inj h
                      rfl
                · rw [if_neg t2] at h
                  by_cases t3 : (type == "get_peers") = true
                  · rw [if_pos t3] at h
                    simp only [Bind.bind, Except.bind] at h
                    cases hgp : processGetPeers s.K buckets s.peers a with
                    | error e => simp only [hgp] at h; simp at h
                    | ok out =>
                        simp only [hgp] at h
                        cases Except.ok.inj h
                        rfl
                  · rw [if_neg t3] at h
                    by_cases t4 : (type == "announce_peer") = true
                    · rw [if_pos t4] at h
                      simp only [Bind.bind, Except.bind] at h
                      cases hap : processAnnouncePeer s.peers a rinfo pt with
                      | error e => simp only [hap] at h; simp at h
                      | ok pr =>
                          simp only [hap] at h
                          cases Except.ok.inj h
                          exact processAnnouncePeer_keys hap
                    · rw [if_neg t4] at h
                      cases Except.ok.inj h
                      rfl

/-- Witness for C9: the first announce for the fresh infohash `lowId 4`
on an empty peer store raises a TypeError, and processing a ping leaves
the (empty) key set of the peer store unchanged. -/
theorem c9_witness :
    processAnnouncePeer ([] : PeerMap) c9Args obsRinfo 3600000 = .error .typeError
      ∧ (obsState1, ([Outgoing.response RespBody.empty] : List Outgoing),
          ([] : List NodeEvent)).1.peers.map Prod.fst
          = freshNode.peers.map Prod.fst :=
  ⟨c9_fresh_infohash_announce_throws.1 ([] : PeerMap) c9Args obsRinfo 3600000
      (lowId 4) rfl rfl rfl rfl,
   c9_fresh_infohash_announce_throws.2 freshNode ("ping") (pingMsg 1) obsRinfo 0 3600000
      (obsState1, [Outgoing.response RespBody.empty], []) rfl⟩

lemma txInv_init : TxInv txInit := by
  refine ⟨?_, ?_, ?_, ?_⟩ <;> intro q <;> simp [txInit]

lemma txInv_register (s : TxState) (key : Nat) (h : TxInv s) :
    TxInv (txStep s (.register key)) := by
  obtain ⟨h1, h2, h3, h4⟩ := h
  simp only [txStep, TxInv]
  refine ⟨?_, h2, ?_, ?_⟩
  · intro q hq
    have hlt : q < s.nextQ := by
      by_contra hge
      push_neg at hge
      have := (h4 q hge).2.1
      omega
    refine ⟨?_, ?_⟩
    · rw [if_neg (by omega : ¬ q = s.nextQ)]
      exact (h1 q hq).1
    · intro k
      by_cases hk : k = key
      · rw [if_pos hk]
        intro hc
        have := Option.some.inj hc
        omega
      · rw [if_neg hk]
        exact (h1 q hq).2 k
  · intro k q hkq
    by_cases hk : k = key
    · rw [if_pos hk] at hkq
      have hq : q = s.nextQ := (Option.some.inj hkq).symm
      subst hq
      rw [if_pos rfl, hk]
    · rw [if_neg hk] at hkq
      have hne : ¬ q = s.nextQ := by
        intro hqq
        subst hqq
        exact (h4 s.nextQ (Nat.le_refl s.nextQ)).2.2 k hkq
      rw [if_neg hne]
      exact h3 k q hkq
  · intro q hge
    have hge0 : s.nextQ ≤ q := by omega
    have hne : ¬ q = s.nextQ := by omega
    refine ⟨?_, (h4 q hge0).2.1, ?_⟩
    · rw [if_neg hne]
      exact (h4 q hge0).1
    · intro k
      by_cases hk : k = key
      · rw [if_pos hk]
        intro hc
        exact hne (Option.some.inj hc).symm
      · rw [if_neg hk]
        exact (h4 q hge0).2.2 k

lemma txInv_response (s : TxState) (key : Nat) (h : TxInv s) :
    TxInv (txStep s (.response key)) := by
  obtain ⟨h1, h2, h3, h4⟩ := h
  simp only [txStep]
  cases hek : s.entries key with
  | none => exact ⟨h1, h2, h3, h4⟩
  | some q =>
      have hq0 : s.invoked q = 0 := by
        by_contra hne
        exact (h1 q (by omega)).2 key hek
      have huniq : ∀ k, s.entries k = some q → k = key := by
        intro k hk
        have t1 := h3 k q hk
        have t2 := h3 key q hek
        rw [t1] at t2
        exact Option.some.inj t2
      have hqlt : q < s.nextQ := by
        by_contra hge
        push_neg at hge
        exact (h4 q hge).2.2 key hek
      simp only [TxInv]
      refine ⟨?_, ?_, ?_, ?_⟩
      · intro q2 hq2
        by_cases hqq : q2 = q
        · subst hqq
          refine ⟨by simp, ?_⟩
          intro k
          by_cases hk : k = key
          · simp [hk]
          · rw [if_neg hk]
            intro hc
            exact hk (huniq k hc)
        · have hinv : 1 ≤ s.invoked q2 := by simpa [if_neg hqq] using hq2
          refine ⟨?_, ?_⟩
          · rw [if_neg hqq]
            exact (h1 q2 hinv).1
          · intro k
            by_cases hk : k = key
            · simp [hk]
            · rw [if_neg hk]
              exact (h1 q2 hinv).2 k
      · intro q2
        by_cases hqq : q2 = q
        · subst hqq
          simp [hq0]
        · simp only [if_neg hqq]
          exact h2 q2
      · intro k q2 hkq
        by_cases hk : k = key
        · rw [if_pos hk] at hkq
          cases hkq
        · rw [if_neg hk] at hkq
          have hqq : ¬ q2 = q := by
            intro he
            subst he
            exact hk (huniq k hkq)
          rw [if_neg hqq]
          exact h3 k q2 hkq
      · intro q2 hge
        have hqq : ¬ q2 = q := by omega
        refine ⟨?_, ?_, ?_⟩
        · rw [if_neg hqq]
          exact (h4 q2 hge).1
        · rw [if_neg hqq]
          exact (h4 q2 hge).2.1
        · intro k
          by_cases hk : k = key
          · simp [hk]
          · rw [if_neg hk]
            exact (h4 q2 hge).2.2 k

lemma txInv_fire (s : TxState) (q : Nat) (h : TxInv s) :
    TxInv (txStep s (.fire q)) := by
  obtain ⟨h1, h2, h3, h4⟩ := h
  simp only [txStep]
  cases htk : s.timer q with
  | none => exact ⟨h1, h2, h3, h4⟩
  | some key =>
      have hq0 : s.invoked q = 0 := by
        by_contra hne
        have := (h1 q (by omega)).1
        rw [htk] at this
        cases this
      have huniq : ∀ k, s.entries k = some q → k = key := by
        intro k hk
        have := h3 k q hk
        rw [htk] at this
        exact (Option.some.inj this).symm
      have hqlt : q < s.nextQ := by
        by_contra hge
        push_neg at hge
        have := (h4 q hge).1
        rw [htk] at this
        cases this
      simp only [TxInv]
      refine ⟨?_, ?_, ?_, ?_⟩
      · intro q2 hq2
        by_cases hqq : q2 = q
        · subst hqq
          refine ⟨by simp, ?_⟩
          intro k
          by_cases hhit : s.entries key = some q2
          · rw [if_pos hhit]
            by_cases hk : k = key
            · simp [hk]
            · rw [if_neg hk]
              intro hc
              exact hk (huniq k hc)
          · rw [if_neg hhit]
            intro hc
            have hk := huniq k hc
            subst hk
            exact hhit hc
        · have hinv : 1 ≤ s.invoked q2 := by simpa [if_neg hqq] using hq2
          refine ⟨?_, ?_⟩
          · rw [if_neg hqq]
            exact (h1 q2 hinv).1
          · intro k
            have hold := (h1 q2 hinv).2 k
            by_cases hhit : s.entries key = some q
            · rw [if_pos hhit]
              by_cases hk : k = key
              · simp [hk]
              · rw [if_neg hk]
                exact hold
            · rw [if_neg hhit]
              exact hold
      · intro q2
        by_cases hqq : q2 = q
        · subst hqq
          simp [hq0]
        · simp only [if_neg hqq]
          exact h2 q2
      · intro k q2 hkq
        have hkq_old : s.entries k = some q2 := by
          by_cases hhit : s.entries key = some q
          · rw [if_pos hhit] at hkq
            by_cases hk : k = key
            · rw [if_pos hk] at hkq
              cases hkq
            · rw [if_neg hk] at hkq
              exact hkq
          · rw [if_neg hhit] at hkq
            exact hkq
        have hqq : ¬ q2 = q := by
          intro he
          subst he
          have hk := huniq k hkq_old
          subst hk
          rw [if_pos hkq_old, if_pos rfl] at hkq
          cases hkq
        rw [if_neg hqq]
        exact h3 k q2 hkq_old
      · intro q2 hge
        have hqq : ¬ q2 = q := by omega
        refine ⟨?_, ?_, ?_⟩
        · rw [if_neg hqq]
          exact (h4 q2 hge).1
        · rw [if_neg hqq]
          exact (h4 q2 hge).2.1
        · intro k
          have hold := (h4 q2 hge).2.2 k
          by_cases hhit : s.entries key = some q
          · rw [if_pos hhit]
            by_cases hk : k = key
            · simp [hk]
            · rw [if_neg hk]
              exact hold
          · rw [if_neg hhit]
            exact hold

lemma txInv_step (s : TxState) (e : TxEv) (h : TxInv s) : TxInv (txStep s e) := by
  cases e with
  | register key => exact txInv_register s key h
  | response key => exact txInv_response s key h
  | fire q => exact txInv_fire s q h

lemma txInv_foldl (evs : List TxEv) : ∀ s, TxInv s → TxInv (evs.foldl txStep s) := by
  induction evs with
  | nil => intro s h; exact h
  | cons e rest ih =>
      intro s h
      exact ih (txStep s e) (txInv_step s e h)

/-- C2: over every interleaving of sends (with arbitrary, possibly
colliding transaction ids), response arrivals, and timeout firings, each
registered query's continuation runs at most once; and of the two ways a
query can resolve, whichever applies first does invoke the continuation —
a response arriving while the query is the current entry for its id, or
its timeout firing while its timer is pending — after which the entry is
gone and the timer cleared, so the later one is ignored.  This covers
collisions, since a colliding register silently overwrites the entry
while the old query's timer keeps running. -/
theorem c2_continuation_at_most_once :
    (∀ (evs : List TxEv) (q : Nat), (txRun evs).invoked q ≤ 1)
      ∧ (∀ (evs : List TxEv) (key q : Nat),
          (txRun evs).entries key = some q →
          (txStep (txRun evs) (.response key)).invoked q = (txRun evs).invoked q + 1)
      ∧ (∀ (evs : List TxEv) (q key : Nat),
          (txRun evs).timer q = some key →
          (txStep (txRun evs) (.fire q)).invoked q = (txRun evs).invoked q + 1) := by
  refine ⟨fun evs q => (txInv_foldl evs txInit txInv_init).2.1 q, ?_, ?_⟩
  · intro evs key q h
    simp [txStep, h]
  · intro evs q key h
    simp [txStep, h]

end DhtJs
